import Mathlib

/-!
Verification of the incremental data-loading, caching and aggregation
pipeline of the speedtest dashboard (src/dashboard/app/data_loader.py).

The Python source is shallowly embedded: pure functions become Lean
functions, JSON values become an inductive type, Python exceptions become
an error type threaded through Except, the filesystem and the Parquet
cache become explicit state values, and pandas DataFrames become lists of
records.  Floating-point metric values are modelled as rationals.
-/

namespace Netzbremse

/-! ## Timestamps

A UTC instant at millisecond precision, as produced by
datetime.fromisoformat on the reconstructed ISO-8601 string. -/

structure Instant where
  year : Nat
  month : Nat
  day : Nat
  hour : Nat
  minute : Nat
  second : Nat
  millisecond : Nat
deriving DecidableEq

/-- Leap-year rule of the proleptic Gregorian calendar used by datetime. -/
def isLeap (y : Nat) : Bool := (y % 4 == 0 && y % 100 != 0) || y % 400 == 0

/-- Number of days of a month, as validated by datetime. -/
def daysInMonth (y mo : Nat) : Nat :=
  if mo = 2 then (if isLeap y then 29 else 28)
  else if mo = 4 ∨ mo = 6 ∨ mo = 9 ∨ mo = 11 then 30
  else 31

/-- Field ranges accepted by datetime.fromisoformat (year 1..9999, real
calendar day, 24-hour clock, millisecond fraction). -/
def Instant.Valid (t : Instant) : Prop :=
  1 ≤ t.year ∧ t.year ≤ 9999 ∧ 1 ≤ t.month ∧ t.month ≤ 12 ∧
  1 ≤ t.day ∧ t.day ≤ daysInMonth t.year t.month ∧
  t.hour ≤ 23 ∧ t.minute ≤ 59 ∧ t.second ≤ 59 ∧ t.millisecond ≤ 999

instance (t : Instant) : Decidable t.Valid := by
  unfold Instant.Valid; infer_instance

/-- Mixed-radix chronological sort key: datetime comparison is
lexicographic on (year, month, day, hour, minute, second, millisecond),
and every radix below strictly bounds the corresponding valid field. -/
def Instant.key (t : Instant) : Nat :=
  (((((t.year * 13 + t.month) * 32 + t.day) * 24 + t.hour) * 60 +
      t.minute) * 60 + t.second) * 1000 + t.millisecond

/-- Embedding of datetime.fromisoformat applied to the reconstructed
string f"{date}T{HH}:{MM}:{SS}.{mmm}+00:00": it yields the instant when
the fields are in range and raises ValueError (caught by the codec,
yielding None) otherwise. -/
def fromisoformat (y mo d h mi s ms : Nat) : Option Instant :=
  if Instant.Valid ⟨y, mo, d, h, mi, s, ms⟩ then some ⟨y, mo, d, h, mi, s, ms⟩
  else none

/-! ## Digit strings -/

/-- Decimal digit character for a value below ten. -/
def digitChar : Nat → Char
  | 0 => '0' | 1 => '1' | 2 => '2' | 3 => '3' | 4 => '4'
  | 5 => '5' | 6 => '6' | 7 => '7' | 8 => '8' | 9 => '9'
  | _ => '*'

/-- Numeric value of a decimal digit character. -/
def digitVal (c : Char) : Nat := c.toNat - 48

/-- Zero-padded decimal rendering of v to exactly n digit characters
(most significant first); the encoding used inside the filename format. -/
def padDigits : Nat → Nat → List Char
  | 0, _ => []
  | n + 1, v => digitChar (v / 10 ^ n) :: padDigits n (v % 10 ^ n)

/-- Consume exactly n decimal digits from the front of the character
list, accumulating their value; fails when a non-digit (or the end of
the input) is reached first.  This is the `\d{n}` fragment of the
regular expression in parse_timestamp_from_filename. -/
def takeDigits : Nat → List Char → Nat → Option (Nat × List Char)
  | 0, cs, acc => some (acc, cs)
  | _ + 1, [], _ => none
  | n + 1, c :: cs, acc =>
      if c.isDigit then takeDigits n cs (acc * 10 + digitVal c) else none

/-- Consume an exact literal from the front of the character list; the
literal fragments of the regular expression. -/
def dropLit : List Char → List Char → Option (List Char)
  | [], cs => some cs
  | _ :: _, [] => none
  | l :: ls, c :: cs => if c = l then dropLit ls cs else none

/-! ## Filename/timestamp codec (data_loader.py lines 95-127)

The source matches the filename with
re.match(r"speedtest-(\d\x7b4\x7d-...T...Z)\.json", filename); re.match
anchors at the start of the string only, so trailing characters after
".json" are accepted.  The matched group is then re-split and re-matched
(both steps always succeed on a string the first pattern produced) and
handed to datetime.fromisoformat, whose ValueError is caught and turned
into None. -/

def parse_timestamp_from_filename (s : String) : Option Instant := do
  let cs ← dropLit "speedtest-".data s.data
  let (y, cs) ← takeDigits 4 cs 0
  let cs ← dropLit ['-'] cs
  let (mo, cs) ← takeDigits 2 cs 0
  let cs ← dropLit ['-'] cs
  let (d, cs) ← takeDigits 2 cs 0
  let cs ← dropLit ['T'] cs
  let (h, cs) ← takeDigits 2 cs 0
  let cs ← dropLit ['-'] cs
  let (mi, cs) ← takeDigits 2 cs 0
  let cs ← dropLit ['-'] cs
  let (sec, cs) ← takeDigits 2 cs 0
  let cs ← dropLit ['-'] cs
  let (ms, cs) ← takeDigits 3 cs 0
  let _ ← dropLit "Z.json".data cs
  fromisoformat y mo d h mi sec ms

/-- Modelled from the spec: the producer that names the result files is
not part of this repository; section 4.1 of the spec documents the
filename format speedtest-{date}T{HH}-{MM}-{SS}-{mmm}Z.json, ISO-8601
UTC with the colon/period separators replaced by hyphens. -/
def encodeFilename (t : Instant) : String :=
  "speedtest-" ++ ⟨padDigits 4 t.year⟩ ++ "-" ++ ⟨padDigits 2 t.month⟩ ++
    "-" ++ ⟨padDigits 2 t.day⟩ ++ "T" ++ ⟨padDigits 2 t.hour⟩ ++ "-" ++
    ⟨padDigits 2 t.minute⟩ ++ "-" ++ ⟨padDigits 2 t.second⟩ ++ "-" ++
    ⟨padDigits 3 t.millisecond⟩ ++ "Z.json"

/-! ## JSON values and Python exceptions -/

/-- Values produced by json.load. -/
inductive JVal where
  | null : JVal
  | bool : Bool → JVal
  | num : ℚ → JVal
  | str : String → JVal
  | arr : List JVal → JVal
  | obj : List (String × JVal) → JVal

/-- Exceptions the embedded fragments of load_single_file can raise. -/
inductive PyErr where
  | jsonDecode   -- json.JSONDecodeError
  | osErr        -- OSError
  | keyErr       -- KeyError
  | typeErr      -- TypeError
  | attrErr      -- AttributeError
deriving DecidableEq

/-- Exception classes named by the except clauses of load_single_file
(lines 168-176): JSONDecodeError, KeyError, TypeError, OSError.
AttributeError is not among them. -/
def caught : PyErr → Bool
  | .jsonDecode => true
  | .osErr => true
  | .keyErr => true
  | .typeErr => true
  | .attrErr => false

/-- Python truthiness, as used by the test `if not data.get(...)`. -/
def pyTruthy : JVal → Bool
  | .null => false
  | .bool b => b
  | .num q => q ≠ 0
  | .str s => s ≠ ""
  | .arr l => ¬ l.isEmpty
  | .obj l => ¬ l.isEmpty

/-- Lookup in a JSON object; json.load produces dicts with unique keys,
embedded as association lists read through the first match. -/
def jlookup (fields : List (String × JVal)) (k : String) : Option JVal :=
  match fields with
  | [] => none
  | (k', v) :: rest => if k' = k then some v else jlookup rest k

/-- Test that the second character list starts with the first. -/
def matchHere : List Char → List Char → Bool
  | [], _ => true
  | _ :: _, [] => false
  | k :: ks, c :: cs => k = c && matchHere ks cs

/-- Test that the key occurs as a contiguous subsequence. -/
def hasSubSeq (key : List Char) : List Char → Bool
  | [] => matchHere key []
  | c :: cs => matchHere key (c :: cs) || hasSubSeq key cs

/-- Python substring containment, used by `key in value` on strings
(the empty key is contained in every string). -/
def strContainsSub (s key : String) : Bool :=
  hasSubSeq key.data s.data

/-- Python membership test `key in container` for a string key: key
lookup on dicts, element equality on lists, substring test on strings,
TypeError on the remaining JSON values. -/
def pyContains (container : JVal) (key : String) : Except PyErr Bool :=
  match container with
  | .obj fs => .ok (jlookup fs key).isSome
  | .arr l => .ok (l.any fun v => match v with | .str s => s = key | _ => false)
  | .str s => .ok (strContainsSub s key)
  | _ => .error .typeErr

/-- Python subscript container[key] for a string key: dict lookup
(KeyError when absent), TypeError on every other JSON value. -/
def pyIndexStr (container : JVal) (key : String) : Except PyErr JVal :=
  match container with
  | .obj fs => match jlookup fs key with
      | some v => .ok v
      | none => .error .keyErr
  | _ => .error .typeErr

/-- Conversion function of the download and upload metrics,
lambda x: x / 1_000_000 (METRICS, lines 51-92).  Python division accepts
numbers and booleans (True counts as 1) and raises TypeError otherwise. -/
def convDiv (v : JVal) : Except PyErr JVal :=
  match v with
  | .num q => .ok (.num (q / 1000000))
  | .bool b => .ok (.num ((if b then 1 else 0) / 1000000))
  | _ => .error .typeErr

/-- Conversion function of the six latency/jitter metrics,
lambda x: x — the identity on any value. -/
def convId (v : JVal) : Except PyErr JVal := .ok v

/-! ## Measurement records -/

/-- One normalized measurement record, as built by load_single_file.
Metric fields hold the converted value when the key was present in the
result section and nothing otherwise. -/
structure Record where
  timestamp : Instant
  source_file : String
  sessionID : JVal
  endpoint : JVal
  download : Option JVal
  upload : Option JVal
  latency : Option JVal
  jitter : Option JVal
  downLoadedLatency : Option JVal
  downLoadedJitter : Option JVal
  upLoadedLatency : Option JVal
  upLoadedJitter : Option JVal

/-- Outward-facing record: a Record with the internal source_file
column dropped. -/
structure OutRecord where
  timestamp : Instant
  sessionID : JVal
  endpoint : JVal
  download : Option JVal
  upload : Option JVal
  latency : Option JVal
  jitter : Option JVal
  downLoadedLatency : Option JVal
  downLoadedJitter : Option JVal
  upLoadedLatency : Option JVal
  upLoadedJitter : Option JVal

/-- Embedding of df.drop(columns=["source_file"]) at the record level. -/
def Record.strip (r : Record) : OutRecord :=
  ⟨r.timestamp, r.sessionID, r.endpoint, r.download, r.upload, r.latency,
    r.jitter, r.downLoadedLatency, r.downLoadedJitter, r.upLoadedLatency,
    r.upLoadedJitter⟩

/-- Content of one on-disk file as observed through open + json.load:
an unreadable file raises OSError, content that is not valid JSON
raises JSONDecodeError, otherwise a JSON value is produced. -/
inductive FileRead where
  | readError : FileRead
  | notJson : FileRead
  | json : JVal → FileRead

/-- One metric step of the loop over METRICS (lines 163-165):
if key in data["result"]: record[key] = config["convert"](...). -/
def getMetric (result : JVal) (key : String)
    (conv : JVal → Except PyErr JVal) : Except PyErr (Option JVal) := do
  let present ← pyContains result key
  if present then
    let v ← pyIndexStr result key
    let c ← conv v
    return some c
  else
    return none

/-- Body of load_single_file (lines 136-167) before its except clauses.
The first operation on the decoded value is data.get("success", False),
which raises AttributeError when json.load produced a non-dict. -/
def loadSingleFileBody (name : String) (content : FileRead) :
    Except PyErr (Option Record) := do
  match content with
  | .readError => throw .osErr
  | .notJson => throw .jsonDecode
  | .json data =>
    let fields ← match data with
      | .obj fs => pure fs
      | _ => throw .attrErr
    let success := (jlookup fields "success").getD (JVal.bool false)
    if pyTruthy success = false then return none
    if (jlookup fields "result").isNone then return none
    match parse_timestamp_from_filename name with
    | none => return none
    | some ts =>
      let result ← pyIndexStr data "result"
      let sessionID := (jlookup fields "sessionID").getD JVal.null
      let endpoint := (jlookup fields "endpoint").getD JVal.null
      let download ← getMetric result "download" convDiv
      let upload ← getMetric result "upload" convDiv
      let latency ← getMetric result "latency" convId
      let jitter ← getMetric result "jitter" convId
      let dll ← getMetric result "downLoadedLatency" convId
      let dlj ← getMetric result "downLoadedJitter" convId
      let ull ← getMetric result "upLoadedLatency" convId
      let ulj ← getMetric result "upLoadedJitter" convId
      return some ⟨ts, name, sessionID, endpoint, download, upload,
        latency, jitter, dll, dlj, ull, ulj⟩

/-- Embedding of load_single_file (lines 130-176): the body wrapped in
the four except clauses.  A caught exception becomes a skip (None); any
other exception propagates to the caller. -/
def load_single_file (name : String) (content : FileRead) :
    Except PyErr (Option Record) :=
  match loadSingleFileBody name content with
  | .ok r => .ok r
  | .error e => if caught e then .ok none else .error e

/-! ## Parallel file loader (lines 179-209)

The thread pool runs load_single_file independently on each path and
collects the non-None results as the futures complete; completion order
is irrelevant downstream because the orchestrator sorts by timestamp.
The embedding is the submission-order refinement.  future.result()
re-raises any exception the worker raised, so one uncaught exception
aborts the whole batch. -/

def _load_json_files_parallel :
    List (String × FileRead) → Except PyErr (List Record)
  | [] => .ok []
  | f :: rest => do
      let r ← load_single_file f.1 f.2
      let rs ← _load_json_files_parallel rest
      match r with
      | some rec => .ok (rec :: rs)
      | none => .ok rs

/-! ## Cache store (lines 212-248) -/

/-- State of the Parquet cache file: missing, partially
written/corrupt, or a complete snapshot. -/
inductive CacheFile where
  | absent : CacheFile
  | torn : CacheFile
  | snapshot : List Record → CacheFile

/-- Embedding of _load_cache: a missing file is a miss, any read or
deserialization error is caught and downgraded to a miss, a complete
snapshot is returned. -/
def _load_cache : CacheFile → Option (List Record)
  | .absent => none
  | .torn => none
  | .snapshot rows => some rows

/-- Sequence of states of the cache path during _save_cache:
df.to_parquet(cache_path) opens the destination itself for writing, so
between the start and the end of the write the path holds a partially
written file.  There is no write-to-temporary-then-rename step in the
source. -/
def saveCacheStates (oldState : CacheFile) (df : List Record) :
    List CacheFile :=
  [oldState, .torn, .snapshot df]

/-! ## Incremental loader (lines 251-339) -/

/-- State of the world an invocation of load_all_data observes: whether
the data directory exists, the directory entries (name and readable
content), and the cache file. -/
structure FileSys where
  dirExists : Bool
  files : List (String × FileRead)
  cache : CacheFile

/-- Result of one invocation: the outward dataset, the state of the
cache file afterwards, and the names of the files that were handed to
the parallel loader (the parse work done). -/
structure LoadOutcome where
  outward : List OutRecord
  cache : CacheFile
  parsed : List String

/-- Embedding of Path(DATA_DIR).glob("speedtest-*.json"): names that
start with speedtest- and end with .json. -/
def matchesGlob (name : String) : Bool :=
  15 ≤ name.length &&
    matchHere "speedtest-".data name.data &&
    matchHere ".json".data.reverse name.data.reverse

/-- Comparison key of df.sort_values("timestamp"): pandas compares the
datetime values chronologically. -/
def Record.tsLe (a b : Record) : Prop := a.timestamp.key ≤ b.timestamp.key

instance : DecidableRel Record.tsLe := fun a b =>
  inferInstanceAs (Decidable (a.timestamp.key ≤ b.timestamp.key))

/-- Chronological comparison on outward records. -/
def OutRecord.tsLe (a b : OutRecord) : Prop :=
  a.timestamp.key ≤ b.timestamp.key

instance : DecidableRel OutRecord.tsLe := fun a b =>
  inferInstanceAs (Decidable (a.timestamp.key ≤ b.timestamp.key))

/-- Embedding of df.sort_values("timestamp", ascending=True) on the
full records. -/
def sortByTs (l : List Record) : List Record :=
  l.insertionSort Record.tsLe

/-- Embedding of sort_values("timestamp", ascending=True) on outward
records (the fast path sorts after dropping source_file). -/
def sortOutByTs (l : List OutRecord) : List OutRecord :=
  l.insertionSort OutRecord.tsLe

/-- Cold-start branch of load_all_data (lines 317-327 joining 329-339):
parse every discovered file; with zero surviving records return an
empty dataset without writing the cache, otherwise sort, persist and
return the dataset with source_file stripped. -/
def coldStart (oldCache : CacheFile)
    (all_json_files : List (String × FileRead)) :
    Except PyErr LoadOutcome := do
  let records ← _load_json_files_parallel all_json_files
  if records.isEmpty then
    .ok ⟨[], oldCache, all_json_files.map (·.1)⟩
  else
    let df := sortByTs records
    .ok ⟨df.map Record.strip, .snapshot df, all_json_files.map (·.1)⟩

/-- Embedding of load_all_data (lines 251-339), the orchestrator: it
returns the outward dataset together with the final cache state and the
list of filenames on which parse work was performed. -/
def load_all_data (fs : FileSys) : Except PyErr LoadOutcome :=
  if fs.dirExists = false then .ok ⟨[], fs.cache, []⟩ else
  let all_json_files := fs.files.filter fun f => matchesGlob f.1
  if all_json_files.isEmpty then .ok ⟨[], fs.cache, []⟩ else
  match _load_cache fs.cache with
  | some cached_df =>
    if cached_df.isEmpty then coldStart fs.cache all_json_files else
    let cached_files := cached_df.map Record.source_file
    let new_files := all_json_files.filter fun f =>
      !cached_files.contains f.1
    if new_files.isEmpty then
      .ok ⟨sortOutByTs (cached_df.map Record.strip), fs.cache, []⟩
    else do
      let new_records ← _load_json_files_parallel new_files
      let df := sortByTs (cached_df ++ new_records)
      .ok ⟨df.map Record.strip, .snapshot df, new_files.map (·.1)⟩
  | none => coldStart fs.cache all_json_files

/-! ## Aggregator (lines 349-380)

aggregate_to_intervals consumes the outward dataset (a timestamp column
plus metric columns); timestamps are modelled as integers on the epoch
time axis, in minutes, and the metric columns as optional rationals
(NaN-free floats).  dt.floor(f"{n}min") floors the epoch time to a
multiple of the interval width, i.e. floor division toward minus
infinity. -/

/-- Names of the eight metric columns, the keys of METRICS. -/
inductive MetricKey where
  | download | upload | latency | jitter
  | downLoadedLatency | downLoadedJitter | upLoadedLatency | upLoadedJitter
deriving DecidableEq

/-- One value per metric column, absent when the column holds no value
(NaN / column missing) for this row. -/
structure Metrics where
  download : Option ℚ
  upload : Option ℚ
  latency : Option ℚ
  jitter : Option ℚ
  downLoadedLatency : Option ℚ
  downLoadedJitter : Option ℚ
  upLoadedLatency : Option ℚ
  upLoadedJitter : Option ℚ
deriving DecidableEq

/-- Select one metric column. -/
def Metrics.sel (m : Metrics) : MetricKey → Option ℚ
  | .download => m.download
  | .upload => m.upload
  | .latency => m.latency
  | .jitter => m.jitter
  | .downLoadedLatency => m.downLoadedLatency
  | .downLoadedJitter => m.downLoadedJitter
  | .upLoadedLatency => m.upLoadedLatency
  | .upLoadedJitter => m.upLoadedJitter

/-- One row of the DataFrame handed to aggregate_to_intervals. -/
structure AggRow where
  timestamp : ℤ
  metrics : Metrics
deriving DecidableEq

/-- Embedding of dt.floor on the epoch time axis: the greatest multiple
of the interval width not exceeding the timestamp. -/
def bucketOf (width t : ℤ) : ℤ := t.fdiv width * width

/-- Mean of the non-null values of one metric column in one group, as
computed by the pandas "mean" aggregation: NaN values are skipped, and
a group with no values yields no value (no zero-fill). -/
def meanQ (l : List ℚ) : Option ℚ :=
  if l.isEmpty then none else some (l.sum / l.length)

/-- Per-bucket aggregation of every metric column (agg_dict maps each
metric column to "mean"). -/
def bucketMetrics (group : List AggRow) : Metrics :=
  ⟨meanQ (group.filterMap fun r => r.metrics.download),
    meanQ (group.filterMap fun r => r.metrics.upload),
    meanQ (group.filterMap fun r => r.metrics.latency),
    meanQ (group.filterMap fun r => r.metrics.jitter),
    meanQ (group.filterMap fun r => r.metrics.downLoadedLatency),
    meanQ (group.filterMap fun r => r.metrics.downLoadedJitter),
    meanQ (group.filterMap fun r => r.metrics.upLoadedLatency),
    meanQ (group.filterMap fun r => r.metrics.upLoadedJitter)⟩

/-- Embedding of aggregate_to_intervals: an empty frame is returned
unchanged; otherwise each row is assigned its interval start, the frame
is grouped by interval (groupby emits the group keys sorted ascending),
each group is reduced to the per-metric means, and the result is sorted
ascending by the bucket start (sort_values on an already sorted frame). -/
def aggregate_to_intervals (df : List AggRow) (interval : ℤ) :
    List AggRow :=
  if df.isEmpty then df else
  let keyed := df.map fun r => AggRow.mk (bucketOf interval r.timestamp) r.metrics
  let buckets := ((keyed.map AggRow.timestamp).dedup).insertionSort (· ≤ ·)
  buckets.map fun b =>
    ⟨b, bucketMetrics (keyed.filter fun r => r.timestamp = b)⟩

/-! ## Derived views used by the specification statements -/

/-- Outcome of parsing one file through the wrapped parser: the record
when the parse succeeded, nothing when the file was skipped or the
parser raised. -/
def parseOk (f : String × FileRead) : Option Record :=
  match load_single_file f.1 f.2 with
  | .ok r => r
  | .error _ => none

/-- Names recorded in the cache as visible to a reader: the source_file
column of the cached dataset, empty when the cache is absent or
unreadable. -/
def sourceNames (cf : CacheFile) : List String :=
  ((_load_cache cf).getD []).map Record.source_file

instance : IsTotal Record Record.tsLe :=
  ⟨fun a b => Nat.le_total a.timestamp.key b.timestamp.key⟩

instance : IsTrans Record Record.tsLe :=
  ⟨fun _ _ _ hab hbc => Nat.le_trans hab hbc⟩

instance : IsTotal OutRecord OutRecord.tsLe :=
  ⟨fun a b => Nat.le_total a.timestamp.key b.timestamp.key⟩

instance : IsTrans OutRecord OutRecord.tsLe :=
  ⟨fun _ _ _ hab hbc => Nat.le_trans hab hbc⟩

/-- The METRICS key of a metric column. -/
def metricKeyName : MetricKey → String
  | .download => "download"
  | .upload => "upload"
  | .latency => "latency"
  | .jitter => "jitter"
  | .downLoadedLatency => "downLoadedLatency"
  | .downLoadedJitter => "downLoadedJitter"
  | .upLoadedLatency => "upLoadedLatency"
  | .upLoadedJitter => "upLoadedJitter"

/-- The conversion function METRICS assigns to a metric key. -/
def metricConv : MetricKey → (JVal → Except PyErr JVal)
  | .download => convDiv
  | .upload => convDiv
  | _ => convId

/-- Select one metric field of a record. -/
def Record.metricVal (r : Record) : MetricKey → Option JVal
  | .download => r.download
  | .upload => r.upload
  | .latency => r.latency
  | .jitter => r.jitter
  | .downLoadedLatency => r.downLoadedLatency
  | .downLoadedJitter => r.downLoadedJitter
  | .upLoadedLatency => r.upLoadedLatency
  | .upLoadedJitter => r.upLoadedJitter

/-! ## Concrete fixtures used by the witnesses -/

/-- A well-formed result filename. -/
def wName1 : String := "speedtest-2024-01-15T10-30-00-000Z.json"

/-- A second well-formed result filename, five minutes later. -/
def wName2 : String := "speedtest-2024-01-15T10-35-00-000Z.json"

/-- A well-formed file content with one identity-converted metric. -/
def wContent : FileRead :=
  .json (.obj [("success", .bool true), ("result", .obj [("latency",
    .num 12)])])

/-- The record load_single_file produces for wName1/wContent. -/
def wRec1 : Record :=
  ⟨⟨2024, 1, 15, 10, 30, 0, 0⟩, wName1, .null, .null, none, none,
    some (.num 12), none, none, none, none, none⟩

/-- The record load_single_file produces for wName2/wContent. -/
def wRec2 : Record :=
  ⟨⟨2024, 1, 15, 10, 35, 0, 0⟩, wName2, .null, .null, none, none,
    some (.num 12), none, none, none, none, none⟩

/-- An aggregation row carrying only a download value. -/
def wAggRow (t : ℤ) (q : ℚ) : AggRow :=
  ⟨t, ⟨some q, none, none, none, none, none, none, none⟩⟩

/-! ## Lemmas about digit strings -/

theorem isDigit_toNat {c : Char} (h : c.isDigit = true) :
    48 ≤ c.toNat ∧ c.toNat ≤ 57 := by
  simp [Char.isDigit, Char.le_def] at h
  exact ⟨h.1, h.2⟩

theorem digitChar_isDigit {k : Nat} (h : k < 10) :
    (digitChar k).isDigit = true := by
  match k, h with
  | 0, _ | 1, _ | 2, _ | 3, _ | 4, _ | 5, _ | 6, _ | 7, _ | 8, _ | 9, _ =>
    decide

theorem digitVal_digitChar {k : Nat} (h : k < 10) :
    digitVal (digitChar k) = k := by
  match k, h with
  | 0, _ | 1, _ | 2, _ | 3, _ | 4, _ | 5, _ | 6, _ | 7, _ | 8, _ | 9, _ =>
    decide

theorem digitVal_le {c : Char} (h : c.isDigit = true) : digitVal c ≤ 9 := by
  have := isDigit_toNat h
  unfold digitVal
  omega

theorem digitChar_digitVal {c : Char} (h : c.isDigit = true) :
    digitChar (digitVal c) = c := by
  obtain ⟨h1, h2⟩ := isDigit_toNat h
  have h1' : 48 ≤ c.toNat := h1
  have h2' : c.toNat ≤ 57 := h2
  have hc : c = Char.ofNat c.toNat := (Char.ofNat_toNat c).symm
  have hn : c.toNat = 48 ∨ c.toNat = 49 ∨ c.toNat = 50 ∨ c.toNat = 51 ∨
      c.toNat = 52 ∨ c.toNat = 53 ∨ c.toNat = 54 ∨ c.toNat = 55 ∨
      c.toNat = 56 ∨ c.toNat = 57 := by omega
  unfold digitVal
  rcases hn with h | h | h | h | h | h | h | h | h | h <;>
    rw [hc, h] <;> decide

theorem takeDigits_append :
    ∀ (n : Nat) (v : Nat), v < 10 ^ n → ∀ (rest : List Char) (acc : Nat),
    takeDigits n (padDigits n v ++ rest) acc = some (acc * 10 ^ n + v, rest)
  | 0, v, hv, rest, acc => by
    interval_cases v
    simp [takeDigits, padDigits]
  | n + 1, v, hv, rest, acc => by
    have hpos : 0 < 10 ^ n := Nat.pos_pow_of_pos n (by norm_num)
    have hd : v / 10 ^ n < 10 := by
      rw [Nat.div_lt_iff_lt_mul hpos]
      have : 10 ^ (n + 1) = 10 * 10 ^ n := by ring
      omega
    have hm : v % 10 ^ n < 10 ^ n := Nat.mod_lt _ hpos
    have ih := takeDigits_append n (v % 10 ^ n) hm rest
      (acc * 10 + v / 10 ^ n)
    have harith : (acc * 10 + v / 10 ^ n) * 10 ^ n + v % 10 ^ n
        = acc * 10 ^ (n + 1) + v := by
      have hdm : v / 10 ^ n * 10 ^ n + v % 10 ^ n = v := Nat.div_add_mod' v _
      calc (acc * 10 + v / 10 ^ n) * 10 ^ n + v % 10 ^ n
          = acc * (10 ^ n * 10) + (v / 10 ^ n * 10 ^ n + v % 10 ^ n) := by
            ring
        _ = acc * 10 ^ (n + 1) + v := by rw [hdm, pow_succ]
    simp only [padDigits, List.cons_append, takeDigits,
      digitChar_isDigit hd, if_true, digitVal_digitChar hd, List.append_eq,
      ih, harith]

theorem takeDigits_inv :
    ∀ {n : Nat} {cs : List Char} {acc res : Nat} {rest : List Char},
    takeDigits n cs acc = some (res, rest) →
    ∃ v, v < 10 ^ n ∧ cs = padDigits n v ++ rest ∧ res = acc * 10 ^ n + v := by
  intro n
  induction n with
  | zero =>
    intro cs acc res rest h
    simp [takeDigits] at h
    exact ⟨0, by norm_num, by simp [padDigits, h.2], by simp [h.1]⟩
  | succ n ih =>
    intro cs acc res rest h
    match cs with
    | [] => simp [takeDigits] at h
    | c :: cs' =>
      simp only [takeDigits] at h
      by_cases hd : c.isDigit = true
      · rw [if_pos hd] at h
        obtain ⟨v', hv', hcs', hres⟩ := ih h
        have hdv : digitVal c ≤ 9 := digitVal_le hd
        have hpos : 0 < 10 ^ n := Nat.pos_pow_of_pos n (by norm_num)
        refine ⟨digitVal c * 10 ^ n + v', ?_, ?_, ?_⟩
        · have hmul : digitVal c * 10 ^ n ≤ 9 * 10 ^ n :=
            Nat.mul_le_mul_right (10 ^ n) hdv
          have hpow : 10 ^ (n + 1) = 9 * 10 ^ n + 10 ^ n := by ring
          omega
        · have hdiv : (digitVal c * 10 ^ n + v') / 10 ^ n = digitVal c := by
            rw [mul_comm, Nat.mul_add_div hpos, Nat.div_eq_of_lt hv',
              Nat.add_zero]
          have hmod : (digitVal c * 10 ^ n + v') % 10 ^ n = v' := by
            rw [mul_comm, Nat.mul_add_mod, Nat.mod_eq_of_lt hv']
          simp only [padDigits, hdiv, hmod, digitChar_digitVal hd,
            List.cons_append, hcs']
        · rw [hres]
          calc (acc * 10 + digitVal c) * 10 ^ n + v'
              = acc * (10 ^ n * 10) + (digitVal c * 10 ^ n + v') := by ring
            _ = acc * 10 ^ (n + 1) + (digitVal c * 10 ^ n + v') := by
                rw [pow_succ]
      · rw [if_neg hd] at h
        exact absurd h (by simp)

theorem dropLit_append (lit rest : List Char) :
    dropLit lit (lit ++ rest) = some rest := by
  induction lit with
  | nil => simp [dropLit]
  | cons c cs ih => simp [dropLit, ih]

theorem dropLit_inv :
    ∀ {lit cs rest : List Char}, dropLit lit cs = some rest →
    cs = lit ++ rest := by
  intro lit
  induction lit with
  | nil =>
    intro cs rest h
    simp [dropLit] at h
    simp [h]
  | cons l ls ih =>
    intro cs rest h
    match cs with
    | [] => simp [dropLit] at h
    | c :: cs' =>
      simp only [dropLit] at h
      by_cases hc : c = l
      · rw [if_pos hc] at h
        simp [hc, ih h]
      · rw [if_neg hc] at h
        exact absurd h (by simp)

/-! ## Codec round trip and inversion -/

theorem fromisoformat_valid {y mo d h mi s ms : Nat}
    (hv : Instant.Valid ⟨y, mo, d, h, mi, s, ms⟩) :
    fromisoformat y mo d h mi s ms = some ⟨y, mo, d, h, mi, s, ms⟩ := by
  unfold fromisoformat
  rw [if_pos hv]

theorem fromisoformat_inv {y mo d hr mi s ms : Nat} {t : Instant}
    (heq : fromisoformat y mo d hr mi s ms = some t) :
    t = ⟨y, mo, d, hr, mi, s, ms⟩ ∧ t.Valid := by
  unfold fromisoformat at heq
  split at heq
  · cases heq
    exact ⟨rfl, by assumption⟩
  · cases heq

theorem daysInMonth_le (y mo : Nat) : daysInMonth y mo ≤ 31 := by
  unfold daysInMonth
  split
  · split <;> norm_num
  · split <;> norm_num

set_option maxHeartbeats 8000000 in
theorem parse_encode_suffix (t : Instant) (hv : t.Valid) (suffix : String) :
    parse_timestamp_from_filename (encodeFilename t ++ suffix) = some t := by
  obtain ⟨h1, h2, h3, h4, h5, h6, h7, h8, h9, h10⟩ := hv
  have hdm := daysInMonth_le t.year t.month
  have hy : t.year < 10 ^ 4 := by norm_num; omega
  have hmo : t.month < 10 ^ 2 := by norm_num; omega
  have hd : t.day < 10 ^ 2 := by norm_num; omega
  have hh : t.hour < 10 ^ 2 := by norm_num; omega
  have hmi : t.minute < 10 ^ 2 := by norm_num; omega
  have hs : t.second < 10 ^ 2 := by norm_num; omega
  have hms : t.millisecond < 10 ^ 3 := by norm_num; omega
  have ty : ∀ r, takeDigits 4 (padDigits 4 t.year ++ r) 0
      = some (t.year, r) :=
    fun r => by simpa using takeDigits_append 4 t.year hy r 0
  have tmo : ∀ r, takeDigits 2 (padDigits 2 t.month ++ r) 0
      = some (t.month, r) :=
    fun r => by simpa using takeDigits_append 2 t.month hmo r 0
  have td : ∀ r, takeDigits 2 (padDigits 2 t.day ++ r) 0
      = some (t.day, r) :=
    fun r => by simpa using takeDigits_append 2 t.day hd r 0
  have th : ∀ r, takeDigits 2 (padDigits 2 t.hour ++ r) 0
      = some (t.hour, r) :=
    fun r => by simpa using takeDigits_append 2 t.hour hh r 0
  have tmi : ∀ r, takeDigits 2 (padDigits 2 t.minute ++ r) 0
      = some (t.minute, r) :=
    fun r => by simpa using takeDigits_append 2 t.minute hmi r 0
  have ts : ∀ r, takeDigits 2 (padDigits 2 t.second ++ r) 0
      = some (t.second, r) :=
    fun r => by simpa using takeDigits_append 2 t.second hs r 0
  have tms : ∀ r, takeDigits 3 (padDigits 3 t.millisecond ++ r) 0
      = some (t.millisecond, r) :=
    fun r => by simpa using takeDigits_append 3 t.millisecond hms r 0
  have hvv : Instant.Valid ⟨t.year, t.month, t.day, t.hour, t.minute,
      t.second, t.millisecond⟩ :=
    ⟨h1, h2, h3, h4, h5, h6, h7, h8, h9, h10⟩
  simp only [parse_timestamp_from_filename, encodeFilename,
    String.data_append, List.append_assoc]
  simp only [Option.bind_eq_bind, dropLit_append, ty, tmo, td, th, tmi, ts,
    tms, Option.some_bind]
  exact fromisoformat_valid hvv

theorem encodeFilename_data (t : Instant) :
    (encodeFilename t).data = "speedtest-".data ++ (padDigits 4 t.year ++
      (['-'] ++ (padDigits 2 t.month ++ (['-'] ++ (padDigits 2 t.day ++
      (['T'] ++ (padDigits 2 t.hour ++ (['-'] ++ (padDigits 2 t.minute ++
      (['-'] ++ (padDigits 2 t.second ++ (['-'] ++
      (padDigits 3 t.millisecond ++ "Z.json".data))))))))))))) := by
  simp [encodeFilename, String.data_append, List.append_assoc]

theorem parse_inv {s : String} {t : Instant}
    (h : parse_timestamp_from_filename s = some t) :
    t.Valid ∧ ∃ rest, s.data = (encodeFilename t).data ++ rest := by
  unfold parse_timestamp_from_filename at h
  simp only [Option.bind_eq_bind, Option.bind_eq_some] at h
  obtain ⟨c1, hc1, ⟨y, c2⟩, hy2, c3, hc3, ⟨mo, c4⟩, hmo4, c5, hc5, ⟨d, c6⟩,
    hd6, c7, hc7, ⟨h', c8⟩, hh8, c9, hc9, ⟨mi, c10⟩, hmi10, c11, hc11,
    ⟨sec, c12⟩, hs12, c13, hc13, ⟨ms, c14⟩, hms14, c15, hc15, hiso⟩ := h
  dsimp only at hc3 hc5 hc7 hc9 hc11 hc13 hc15
  obtain ⟨hteq, htv⟩ := fromisoformat_inv hiso
  subst hteq
  obtain ⟨vy, hvy, hc2, hyv⟩ := takeDigits_inv hy2
  obtain ⟨vmo, hvmo, hc4, hmov⟩ := takeDigits_inv hmo4
  obtain ⟨vd, hvd, hc6, hdv⟩ := takeDigits_inv hd6
  obtain ⟨vh, hvh, hc8, hhv⟩ := takeDigits_inv hh8
  obtain ⟨vmi, hvmi, hc10, hmiv⟩ := takeDigits_inv hmi10
  obtain ⟨vs, hvs, hc12, hsv⟩ := takeDigits_inv hs12
  obtain ⟨vms, hvms, hc14, hmsv⟩ := takeDigits_inv hms14
  simp only [Nat.zero_mul, Nat.zero_add] at hyv hmov hdv hhv hmiv hsv hmsv
  subst hyv hmov hdv hhv hmiv hsv hmsv
  refine ⟨htv, c15, ?_⟩
  have h1 := dropLit_inv hc1
  have h3 := dropLit_inv hc3
  have h5 := dropLit_inv hc5
  have h7 := dropLit_inv hc7
  have h9 := dropLit_inv hc9
  have h11 := dropLit_inv hc11
  have h13 := dropLit_inv hc13
  have h15 := dropLit_inv hc15
  rw [encodeFilename_data]
  simp only [h1, hc2, h3, hc4, h5, hc6, h7, hc8, h9, hc10, h11, hc12, h13,
    hc14, h15, List.append_assoc]

/-- C5: for every input string the codec returns the embedded timestamp
or no match and never raises; but contrary to the claim, extra
characters appended after the exact pattern do not yield a no-match:
re.match only anchors at the start of the string.  The filename below
deviates from the exact pattern by a trailing x and still decodes. -/
theorem C5_counterexample :
    parse_timestamp_from_filename
      "speedtest-2024-01-15T10-30-00-000Z.jsonx"
      = some ⟨2024, 1, 15, 10, 30, 0, 0⟩ := by
  decide

/-- C5 amended: the codec is total (it returns an optional instant for
every string, raising nothing) and matches by prefix: a string decodes
to t exactly when it begins with the full encoded pattern for a valid
instant t; in particular every prefix-level deviation (wrong digit
counts, missing Z, wrong separators) yields no match, while characters
appended after the complete pattern are ignored. -/
theorem C5_codec_prefix_total (s : String) :
    (∃ t, parse_timestamp_from_filename s = some t) ↔
      ∃ t rest, t.Valid ∧ s.data = (encodeFilename t).data ++ rest := by
  constructor
  · rintro ⟨t, h⟩
    obtain ⟨hv, rest, hdata⟩ := parse_inv h
    exact ⟨t, rest, hv, hdata⟩
  · rintro ⟨t, rest, hv, hdata⟩
    refine ⟨t, ?_⟩
    have hs : s = encodeFilename t ++ (⟨rest⟩ : String) := by
      apply String.ext
      simpa [String.data_append] using hdata
    rw [hs]
    exact parse_encode_suffix t hv _

/-- Witness for the amended C5 at a concrete string: the equivalence
produces the decoded instant for a filename with a trailing segment. -/
theorem C5_codec_prefix_total_witness :
    ∃ t, parse_timestamp_from_filename
      "speedtest-2024-01-15T10-30-00-000Z.json.bak" = some t :=
  (C5_codec_prefix_total "speedtest-2024-01-15T10-30-00-000Z.json.bak").mpr
    ⟨⟨2024, 1, 15, 10, 30, 0, 0⟩, ".bak".data, by decide, by decide⟩

/-- C6: decoding is a left inverse of encoding — for every valid UTC
instant with millisecond precision, encoding it into the documented
filename pattern and decoding that filename returns exactly the
original instant. -/
theorem C6_codec_round_trip (t : Instant) (hv : t.Valid) :
    parse_timestamp_from_filename (encodeFilename t) = some t := by
  have h := parse_encode_suffix t hv ""
  rwa [String.append_empty] at h

/-- Witness for C6 at a concrete instant. -/
theorem C6_codec_round_trip_witness :
    Instant.Valid ⟨2024, 2, 29, 23, 59, 59, 999⟩ ∧
      parse_timestamp_from_filename
        (encodeFilename ⟨2024, 2, 29, 23, 59, 59, 999⟩)
        = some ⟨2024, 2, 29, 23, 59, 59, 999⟩ :=
  ⟨by decide, C6_codec_round_trip ⟨2024, 2, 29, 23, 59, 59, 999⟩ (by decide)⟩

theorem loader_ok {l : List (String × FileRead)}
    (h : ∀ f ∈ l, ∃ r, load_single_file f.1 f.2 = .ok r) :
    _load_json_files_parallel l = .ok (l.filterMap parseOk) := by
  induction l with
  | nil => rfl
  | cons f rest ih =>
    obtain ⟨r, hr⟩ := h f (by simp)
    have ihh := ih fun g hg => h g (by simp [hg])
    simp only [_load_json_files_parallel, hr, ihh, List.filterMap_cons,
      parseOk, bind, Except.bind]
    cases r <;> rfl

theorem sortByTs_sorted (l : List Record) : (sortByTs l).Sorted Record.tsLe :=
  List.sorted_insertionSort Record.tsLe l

theorem sortByTs_perm (l : List Record) : (sortByTs l).Perm l :=
  List.perm_insertionSort Record.tsLe l

theorem map_strip_sorted {l : List Record} (h : l.Sorted Record.tsLe) :
    (l.map Record.strip).Sorted OutRecord.tsLe := by
  rw [List.Sorted, List.pairwise_map]
  exact h.imp fun hab => hab

theorem sortOut_of_sorted {l : List OutRecord} (h : l.Sorted OutRecord.tsLe) :
    sortOutByTs l = l := h.insertionSort_eq

theorem sortByTs_of_sorted {l : List Record} (h : l.Sorted Record.tsLe) :
    sortByTs l = l := h.insertionSort_eq

theorem new_files_eq (A B : List (String × FileRead)) (cached : List Record)
    (hA : ∀ f ∈ A, f.1 ∈ cached.map Record.source_file)
    (hB : ∀ f ∈ B, f.1 ∉ cached.map Record.source_file) :
    (A ++ B).filter
      (fun f => !((cached.map Record.source_file).contains f.1)) = B := by
  rw [List.filter_append]
  have h1 : A.filter
      (fun f => !((cached.map Record.source_file).contains f.1)) = [] := by
    simp only [List.filter_eq_nil_iff]
    intro f hf
    simp [List.contains, List.elem_eq_mem, hA f hf]
  have h2 : B.filter
      (fun f => !((cached.map Record.source_file).contains f.1)) = B := by
    rw [List.filter_eq_self]
    intro f hf
    simp [List.contains, List.elem_eq_mem, hB f hf]
  rw [h1, h2, List.nil_append]

/-- C1: incremental merge — when the cache holds exactly the records of
the file set A and the disjoint set B of new files is on disk, the
orchestrator hands exactly the files of B to the parser, and both the
returned dataset and the persisted cache equal the timestamp-ascending
sort of the cached records together with the records parsed from B, the
returned copy with the source_file column stripped. -/
theorem C1_incremental_merge (fs : FileSys) (A B : List (String × FileRead))
    (cached : List Record)
    (hdir : fs.dirExists = true)
    (hglob : fs.files.filter (fun f => matchesGlob f.1) = A ++ B)
    (hcache : fs.cache = .snapshot cached)
    (hne : cached ≠ [])
    (hA : ∀ f ∈ A, f.1 ∈ cached.map Record.source_file)
    (hB : ∀ f ∈ B, f.1 ∉ cached.map Record.source_file)
    (hBne : B ≠ [])
    (hBok : ∀ f ∈ B, ∃ r, load_single_file f.1 f.2 = .ok r) :
    load_all_data fs =
      .ok ⟨(sortByTs (cached ++ B.filterMap parseOk)).map Record.strip,
        .snapshot (sortByTs (cached ++ B.filterMap parseOk)),
        B.map (·.1)⟩ := by
  have hABne : A ++ B ≠ [] := fun hc => hBne (List.append_eq_nil.mp hc).2
  unfold load_all_data
  rw [hdir, hglob, hcache]
  simp only [Bool.true_eq_false, if_false, List.isEmpty_eq_false.mpr hABne,
    _load_cache, List.isEmpty_eq_false.mpr hne, new_files_eq A B cached hA hB,
    List.isEmpty_eq_false.mpr hBne, loader_ok hBok, bind, Except.bind,
    Bool.false_eq_true, if_false]


theorem load_all_data_fast (fs : FileSys) (c : List Record)
    (hdir : fs.dirExists = true)
    (hglobne : fs.files.filter (fun f => matchesGlob f.1) ≠ [])
    (hcache : fs.cache = .snapshot c) (hcne : c ≠ [])
    (hcov : ∀ f ∈ fs.files.filter (fun f => matchesGlob f.1),
      f.1 ∈ c.map Record.source_file) :
    load_all_data fs
      = .ok ⟨sortOutByTs (c.map Record.strip), fs.cache, []⟩ := by
  have hnew : (fs.files.filter (fun f => matchesGlob f.1)).filter
      (fun f => !((c.map Record.source_file).contains f.1)) = [] := by
    simp only [List.filter_eq_nil_iff]
    intro f hf
    simp [List.contains, List.elem_eq_mem, hcov f hf]
  unfold load_all_data
  rw [hdir, hcache]
  simp only [Bool.true_eq_false, Bool.false_eq_true, if_false,
    List.isEmpty_eq_false.mpr hglobne, _load_cache,
    List.isEmpty_eq_false.mpr hcne, hnew, List.isEmpty_nil, if_true]

theorem coldStart_inv {oldCache : CacheFile} {files : List (String × FileRead)}
    {o : LoadOutcome} (h : coldStart oldCache files = .ok o) :
    (o.cache = oldCache ∧ o.outward = []) ∨
      ∃ records, o.cache = .snapshot (sortByTs records) ∧
        o.outward = (sortByTs records).map Record.strip := by
  unfold coldStart at h
  simp only [bind, Except.bind] at h
  cases hres : _load_json_files_parallel files with
  | error e => rw [hres] at h; simp at h
  | ok records =>
    rw [hres] at h
    dsimp only at h
    split at h
    · simp only [Except.ok.injEq] at h
      subst h
      exact Or.inl ⟨rfl, rfl⟩
    · simp only [Except.ok.injEq] at h
      subst h
      exact Or.inr ⟨records, rfl, rfl⟩

/-- C2: fast-path idempotence — when the cache produced by a previous
invocation is present and non-empty and already records the source_file
of every on-disk file matching the naming convention, a new invocation
returns the previous invocation's outward dataset unchanged, leaves the
cache untouched, and performs zero file-parse work. -/
theorem C2_fast_path_idempotent (fs : FileSys) (o1 : LoadOutcome) (c : List Record)
    (h1 : load_all_data fs = .ok o1)
    (hc : o1.cache = .snapshot c) (hcne : c ≠ [])
    (hcov : ∀ f ∈ fs.files.filter (fun f => matchesGlob f.1),
        f.1 ∈ c.map Record.source_file) :
    load_all_data { fs with cache := o1.cache }
      = .ok ⟨o1.outward, o1.cache, []⟩ := by
  unfold load_all_data at h1
  by_cases hdir : fs.dirExists = false
  · rw [if_pos hdir] at h1
    simp only [Except.ok.injEq] at h1
    subst h1
    unfold load_all_data
    simp [hdir]
  · have hdir' : fs.dirExists = true := by
      cases hfs : fs.dirExists
      · exact absurd hfs hdir
      · rfl
    rw [if_neg hdir] at h1
    cases hglobE : (fs.files.filter fun f => matchesGlob f.1).isEmpty with
    | true =>
      rw [if_pos hglobE] at h1
      simp only [Except.ok.injEq] at h1
      subst h1
      unfold load_all_data
      rw [if_neg hdir, if_pos hglobE]
    | false =>
      rw [if_neg (by simp [hglobE])] at h1
      have hglobne : fs.files.filter (fun f => matchesGlob f.1) ≠ [] := by
        simpa using hglobE
      -- run 2 is the fast path on the cache state run 1 left behind
      have hfast := load_all_data_fast { fs with cache := o1.cache } c hdir'
        hglobne (by simpa using hc) hcne hcov
      -- it remains to identify run 1 outward dataset with the fast result
      suffices houtc : o1.outward = sortOutByTs (c.map Record.strip) by
        rw [hfast, houtc]
      -- case analysis on the branch run 1 took
      cases hcf : fs.cache with
      | absent =>
        rw [hcf] at h1
        simp only [_load_cache] at h1
        rcases coldStart_inv h1 with ⟨hcache', _⟩ | ⟨records, hcache', hout⟩
        · rw [hc] at hcache'; cases hcache'
        · rw [hc] at hcache'
          cases hcache'
          rw [hout]
          exact (sortOut_of_sorted (map_strip_sorted (sortByTs_sorted _))).symm
      | torn =>
        rw [hcf] at h1
        simp only [_load_cache] at h1
        rcases coldStart_inv h1 with ⟨hcache', _⟩ | ⟨records, hcache', hout⟩
        · rw [hc] at hcache'; cases hcache'
        · rw [hc] at hcache'
          cases hcache'
          rw [hout]
          exact (sortOut_of_sorted (map_strip_sorted (sortByTs_sorted _))).symm
      | snapshot d =>
        rw [hcf] at h1
        simp only [_load_cache] at h1
        cases hdE : d.isEmpty with
        | true =>
          rw [if_pos hdE] at h1
          rcases coldStart_inv h1 with ⟨hcache', _⟩ | ⟨records, hcache', hout⟩
          · rw [hc] at hcache'
            injection hcache' with hdc
            rw [List.isEmpty_iff] at hdE
            exact absurd (hdc ▸ hdE) hcne
          · rw [hc] at hcache'
            cases hcache'
            rw [hout]
            exact (sortOut_of_sorted (map_strip_sorted (sortByTs_sorted _))).symm
        | false =>
          rw [if_neg (by simp [hdE])] at h1
          cases hnewE : ((fs.files.filter fun f => matchesGlob f.1).filter
              fun f => !((d.map Record.source_file).contains f.1)).isEmpty with
          | true =>
            rw [if_pos hnewE] at h1
            simp only [Except.ok.injEq] at h1
            subst h1
            have hc' : CacheFile.snapshot d = CacheFile.snapshot c := hc
            injection hc' with hdc
            show sortOutByTs (d.map Record.strip) = _
            rw [hdc]
          | false =>
            rw [if_neg (by simp only [hnewE]; decide)] at h1
            simp only [bind, Except.bind] at h1
            cases hres : _load_json_files_parallel
                ((fs.files.filter fun f => matchesGlob f.1).filter
                  fun f => !((d.map Record.source_file).contains f.1)) with
            | error e => rw [hres] at h1; simp at h1
            | ok nr =>
              rw [hres] at h1
              dsimp only at h1
              simp only [Except.ok.injEq] at h1
              subst h1
              have hc' : CacheFile.snapshot (sortByTs (d ++ nr))
                  = CacheFile.snapshot c := hc
              injection hc' with hdc
              show List.map Record.strip (sortByTs (d ++ nr)) = _
              rw [← hdc]
              exact (sortOut_of_sorted (map_strip_sorted
                (sortByTs_sorted _))).symm


theorem loader_inv {l : List (String × FileRead)} {rs : List Record}
    (h : _load_json_files_parallel l = .ok rs) : rs = l.filterMap parseOk := by
  induction l generalizing rs with
  | nil =>
    simp only [_load_json_files_parallel, Except.ok.injEq] at h
    simp [← h]
  | cons f rest ih =>
    simp only [_load_json_files_parallel, bind, Except.bind] at h
    cases hr : load_single_file f.1 f.2 with
    | error e => rw [hr] at h; cases h
    | ok r =>
      rw [hr] at h
      dsimp only at h
      cases hrest : _load_json_files_parallel rest with
      | error e => rw [hrest] at h; cases h
      | ok rs' =>
        rw [hrest] at h
        dsimp only at h
        have hfm : parseOk f = r := by simp [parseOk, hr]
        cases r with
        | none =>
          simp only [Except.ok.injEq] at h
          subst h
          simp [List.filterMap_cons, hfm, ih hrest]
        | some rec =>
          simp only [Except.ok.injEq] at h
          subst h
          simp [List.filterMap_cons, hfm, ih hrest]

theorem body_source {name : String} {content : FileRead} {r : Record}
    (h : loadSingleFileBody name content = .ok (some r)) :
    r.source_file = name := by
  unfold loadSingleFileBody at h
  cases content with
  | readError => cases h
  | notJson => cases h
  | json data =>
    simp only [bind, Except.bind, pure, Except.pure] at h
    cases data with
    | obj fields =>
      dsimp only at h
      repeat' split at h
      all_goals (cases h <;> rfl)
    | null => cases h
    | bool b => cases h
    | num q => cases h
    | str s => cases h
    | arr l => cases h


theorem parseOk_source {f : String × FileRead} {r : Record}
    (h : parseOk f = some r) : r.source_file = f.1 := by
  unfold parseOk at h
  cases hl : load_single_file f.1 f.2 with
  | error e => rw [hl] at h; cases h
  | ok rr =>
    rw [hl] at h
    dsimp only at h
    subst h
    unfold load_single_file at hl
    cases hb : loadSingleFileBody f.1 f.2 with
    | error e =>
      rw [hb] at hl
      dsimp only at hl
      split at hl
      · cases hl
      · cases hl
    | ok rr' =>
      rw [hb] at hl
      dsimp only at hl
      cases hl
      exact body_source hb

theorem load_all_data_inv (fs : FileSys) (o : LoadOutcome)
    (glob : List (String × FileRead))
    (hg : glob = fs.files.filter (fun f => matchesGlob f.1))
    (h : load_all_data fs = .ok o) (hdir : fs.dirExists = true) :
    (glob = [] ∧ o = ⟨[], fs.cache, []⟩) ∨
    (∃ cached, glob ≠ [] ∧
      _load_cache fs.cache = some cached ∧ cached ≠ [] ∧
      glob.filter (fun f => !((cached.map Record.source_file).contains f.1))
        = [] ∧
      o = ⟨sortOutByTs (cached.map Record.strip), fs.cache, []⟩) ∨
    (∃ cached nf, glob ≠ [] ∧
      _load_cache fs.cache = some cached ∧ cached ≠ [] ∧
      nf = glob.filter
        (fun f => !((cached.map Record.source_file).contains f.1)) ∧
      nf ≠ [] ∧
      o = ⟨(sortByTs (cached ++ nf.filterMap parseOk)).map Record.strip,
        .snapshot (sortByTs (cached ++ nf.filterMap parseOk)),
        nf.map (·.1)⟩) ∨
    (glob ≠ [] ∧
      (_load_cache fs.cache = none ∨ _load_cache fs.cache = some []) ∧
      ((glob.filterMap parseOk = [] ∧
          o = ⟨[], fs.cache, glob.map (·.1)⟩) ∨
        (glob.filterMap parseOk ≠ [] ∧
          o = ⟨(sortByTs (glob.filterMap parseOk)).map Record.strip,
            .snapshot (sortByTs (glob.filterMap parseOk)),
            glob.map (·.1)⟩))) := by
  subst hg
  have hcold : ∀ oldCache,
      coldStart oldCache (fs.files.filter (fun f => matchesGlob f.1))
        = .ok o →
      (((fs.files.filter (fun f => matchesGlob f.1)).filterMap parseOk = [] ∧
        o = ⟨[], oldCache,
          (fs.files.filter (fun f => matchesGlob f.1)).map (·.1)⟩) ∨
      ((fs.files.filter (fun f => matchesGlob f.1)).filterMap parseOk ≠ [] ∧
        o = ⟨(sortByTs ((fs.files.filter
            (fun f => matchesGlob f.1)).filterMap parseOk)).map Record.strip,
          .snapshot (sortByTs ((fs.files.filter
            (fun f => matchesGlob f.1)).filterMap parseOk)),
          (fs.files.filter (fun f => matchesGlob f.1)).map (·.1)⟩)) := by
    intro oldCache hcs
    unfold coldStart at hcs
    simp only [bind, Except.bind] at hcs
    cases hres : _load_json_files_parallel
        (fs.files.filter (fun f => matchesGlob f.1)) with
    | error e =>
      rw [hres] at hcs
      dsimp only at hcs
      cases hcs
    | ok records =>
      have hrec := loader_inv hres
      subst hrec
      rw [hres] at hcs
      dsimp only at hcs
      split at hcs
      next hEmp =>
        left
        refine ⟨List.isEmpty_iff.mp hEmp, ?_⟩
        cases hcs
        rfl
      next hEmp =>
        right
        refine ⟨by simpa using hEmp, ?_⟩
        cases hcs
        rfl
  unfold load_all_data at h
  rw [if_neg (by simp [hdir])] at h
  cases hglobE : (fs.files.filter fun f => matchesGlob f.1).isEmpty with
  | true =>
    rw [if_pos hglobE] at h
    cases h
    left
    exact ⟨List.isEmpty_iff.mp hglobE, rfl⟩
  | false =>
    rw [if_neg (by simp only [hglobE]; decide)] at h
    have hglobne : fs.files.filter (fun f => matchesGlob f.1) ≠ [] := by
      simpa using hglobE
    cases hcf : fs.cache with
    | absent =>
      rw [hcf] at h
      simp only [_load_cache] at h
      right; right; right
      exact ⟨hglobne, Or.inl rfl, hcold _ h⟩
    | torn =>
      rw [hcf] at h
      simp only [_load_cache] at h
      right; right; right
      exact ⟨hglobne, Or.inl rfl, hcold _ h⟩
    | snapshot d =>
      rw [hcf] at h
      simp only [_load_cache] at h
      cases hdE : d.isEmpty with
      | true =>
        rw [if_pos hdE] at h
        right; right; right
        refine ⟨hglobne, ?_, hcold _ h⟩
        rw [List.isEmpty_iff.mp hdE]
        exact Or.inr rfl
      | false =>
        rw [if_neg (by simp only [hdE]; decide)] at h
        have hdne : d ≠ [] := by simpa using hdE
        cases hnewE : ((fs.files.filter fun f => matchesGlob f.1).filter
            fun f => !((d.map Record.source_file).contains f.1)).isEmpty with
        | true =>
          rw [if_pos hnewE] at h
          cases h
          right; left
          exact ⟨d, hglobne, rfl, hdne, List.isEmpty_iff.mp hnewE, rfl⟩
        | false =>
          rw [if_neg (by simp only [hnewE]; decide)] at h
          simp only [bind, Except.bind] at h
          cases hres : _load_json_files_parallel
              ((fs.files.filter fun f => matchesGlob f.1).filter
                fun f => !((d.map Record.source_file).contains f.1)) with
          | error e =>
            rw [hres] at h
            dsimp only at h
            cases h
          | ok nr =>
            have hnr := loader_inv hres
            subst hnr
            rw [hres] at h
            dsimp only at h
            cases h
            right; right; left
            exact ⟨d, _, hglobne, rfl, hdne, rfl, by simpa using hnewE, rfl⟩


theorem sourceNames_snapshot (l : List Record) :
    sourceNames (.snapshot l) = l.map Record.source_file := rfl

theorem mem_parsed_names {l : List (String × FileRead)} {n : String} :
    n ∈ (l.filterMap parseOk).map Record.source_file ↔
      ∃ f ∈ l, f.1 = n ∧ (parseOk f).isSome := by
  simp only [List.mem_map, List.mem_filterMap]
  constructor
  · rintro ⟨r, ⟨f, hf, hpf⟩, hsrc⟩
    exact ⟨f, hf, by rw [← hsrc, parseOk_source hpf], by simp [hpf]⟩
  · rintro ⟨f, hf, hfn, hsome⟩
    obtain ⟨r, hr⟩ := Option.isSome_iff_exists.mp hsome
    exact ⟨r, ⟨f, hf, hr⟩, by rw [parseOk_source hr, hfn]⟩

/-- C10: the persisted cache records exactly the names of files whose
parse succeeded in this or an earlier cycle: after an invocation the
recorded name set is the previously recorded set plus the names of
glob-matching files whose parse now succeeded; a file whose name is not
yet recorded is always handed to the parser again; and a file the
parser skipped contributes no entry. -/
theorem C10_cache_names (fs : FileSys) (o : LoadOutcome)
    (h : load_all_data fs = .ok o) (hdir : fs.dirExists = true)
    (hnodup : (fs.files.map (·.1)).Nodup) :
    (∀ n : String, n ∈ sourceNames o.cache ↔
      (n ∈ sourceNames fs.cache ∨
        ∃ f ∈ fs.files.filter (fun g => matchesGlob g.1),
          f.1 = n ∧ (parseOk f).isSome)) ∧
    (∀ f ∈ fs.files.filter (fun g => matchesGlob g.1),
      f.1 ∉ sourceNames fs.cache → f.1 ∈ o.parsed) ∧
    (∀ f ∈ fs.files.filter (fun g => matchesGlob g.1),
      load_single_file f.1 f.2 = .ok none →
        f.1 ∉ sourceNames fs.cache → f.1 ∉ sourceNames o.cache) := by
  have hinj : ∀ f ∈ fs.files.filter (fun g => matchesGlob g.1),
      ∀ g ∈ fs.files.filter (fun g => matchesGlob g.1), f.1 = g.1 → f = g :=
    fun f hf g hg hfg =>
      List.inj_on_of_nodup_map hnodup
        (List.filter_subset' _ hf) (List.filter_subset' _ hg) hfg
  rcases load_all_data_inv fs o _ rfl h hdir with
    ⟨hglob, rfl⟩ |
    ⟨cached, hglobne, hLC, hcne, hflt, rfl⟩ |
    ⟨cached, nf, hglobne, hLC, hcne, hnf, hnfne, rfl⟩ |
    ⟨hglobne, hLC, ⟨hrec, rfl⟩ | ⟨hrec, rfl⟩⟩
  · -- no files matching the glob: nothing changes
    refine ⟨fun n => ?_, ?_, ?_⟩
    · simp [hglob]
    · simp [hglob]
    · simp only [hglob]
      intro f hf
      cases hf
  · -- fast path: cache untouched, every glob file already recorded
    have hbefore : sourceNames fs.cache = cached.map Record.source_file := by
      simp [sourceNames, hLC]
    have hcov : ∀ f ∈ fs.files.filter (fun g => matchesGlob g.1),
        f.1 ∈ cached.map Record.source_file := by
      intro f hf
      have := List.filter_eq_nil_iff.mp hflt f hf
      simpa [List.contains, List.elem_eq_mem] using this
    refine ⟨fun n => ?_, ?_, ?_⟩
    · simp only [hbefore]
      constructor
      · exact Or.inl
      · rintro (hn | ⟨f, hf, rfl, _⟩)
        · exact hn
        · exact hcov f hf
    · intro f hf hnb
      exact absurd (hbefore ▸ hcov f hf) hnb
    · intro f hf _ hnb
      exact hnb
  · -- incremental merge: the new snapshot holds the old names plus the
    -- names of the new files whose parse succeeded
    have hbefore : sourceNames fs.cache = cached.map Record.source_file := by
      simp [sourceNames, hLC]
    have hperm : ((sortByTs (cached ++ nf.filterMap parseOk)).map
        Record.source_file).Perm
        ((cached ++ nf.filterMap parseOk).map Record.source_file) :=
      (sortByTs_perm _).map _
    have hnfsub : ∀ f ∈ nf, f ∈ fs.files.filter (fun g => matchesGlob g.1) :=
      fun f hf => List.filter_subset' _ (hnf ▸ hf)
    refine ⟨fun n => ?_, ?_, ?_⟩
    · dsimp only
      rw [sourceNames_snapshot, hperm.mem_iff, List.map_append,
        List.mem_append, hbefore]
      constructor
      · rintro (hn | hn)
        · exact Or.inl hn
        · obtain ⟨f, hf, hfn, hsome⟩ := mem_parsed_names.mp hn
          exact Or.inr ⟨f, hnfsub f hf, hfn, hsome⟩
      · rintro (hn | ⟨f, hf, rfl, hsome⟩)
        · exact Or.inl hn
        · by_cases hc : f.1 ∈ cached.map Record.source_file
          · exact Or.inl hc
          · refine Or.inr (mem_parsed_names.mpr ⟨f, ?_, rfl, hsome⟩)
            rw [hnf]
            refine List.mem_filter.mpr ⟨hf, ?_⟩
            simp [List.contains, List.elem_eq_mem, hc]
    · intro f hf hnb
      rw [hbefore] at hnb
      dsimp only
      refine List.mem_map.mpr ⟨f, ?_, rfl⟩
      rw [hnf]
      exact List.mem_filter.mpr
        ⟨hf, by simp [List.contains, List.elem_eq_mem, hnb]⟩
    · intro f hf hskip hnb hmem
      dsimp only at hmem
      rw [sourceNames_snapshot, hperm.mem_iff, List.map_append,
        List.mem_append] at hmem
      rcases hmem with hn | hn
      · exact hnb (hbefore ▸ hn)
      · obtain ⟨g, hg, hgn, hsome⟩ := mem_parsed_names.mp hn
        rw [hinj g (hnfsub g hg) f hf hgn] at hsome
        rw [show parseOk f = none from by simp [parseOk, hskip]] at hsome
        cases hsome
  · -- cold start in which no parse succeeded: the cache is untouched
    have hnone := List.filterMap_eq_nil_iff.mp hrec
    refine ⟨fun n => ?_, ?_, ?_⟩
    · dsimp only
      constructor
      · exact Or.inl
      · rintro (hn | ⟨f, hf, rfl, hsome⟩)
        · exact hn
        · rw [hnone f hf] at hsome
          cases hsome
    · intro f hf hnb
      dsimp only
      exact List.mem_map.mpr ⟨f, hf, rfl⟩
    · intro f hf _ hnb
      exact hnb
  · -- cold start that built a fresh snapshot from the successful parses
    have hbefore : sourceNames fs.cache = [] := by
      rcases hLC with hLC | hLC <;> simp [sourceNames, hLC]
    have hperm : ((sortByTs ((fs.files.filter (fun g =>
        matchesGlob g.1)).filterMap parseOk)).map Record.source_file).Perm
        (((fs.files.filter (fun g => matchesGlob g.1)).filterMap
          parseOk).map Record.source_file) :=
      (sortByTs_perm _).map _
    refine ⟨fun n => ?_, ?_, ?_⟩
    · dsimp only
      rw [sourceNames_snapshot, hperm.mem_iff, hbefore, mem_parsed_names]
      simp
    · intro f hf hnb
      dsimp only
      exact List.mem_map.mpr ⟨f, hf, rfl⟩
    · intro f hf hskip hnb hmem
      dsimp only at hmem
      rw [sourceNames_snapshot, hperm.mem_iff] at hmem
      obtain ⟨g, hg, hgn, hsome⟩ := mem_parsed_names.mp hmem
      rw [hinj g hg f hf hgn] at hsome
      rw [show parseOk f = none from by simp [parseOk, hskip]] at hsome
      cases hsome


theorem meanQ_perm {l l' : List ℚ} (hp : l.Perm l') : meanQ l = meanQ l' := by
  unfold meanQ
  have hlen : l.length = l'.length := hp.length_eq
  have hemp : l.isEmpty = l'.isEmpty := by
    rcases l with _ | ⟨a, l⟩ <;> rcases l' with _ | ⟨b, l'⟩ <;> simp_all
  rw [hemp, hp.sum_eq, hp.length_eq]

theorem bucketMetrics_perm {l l' : List AggRow} (hp : l.Perm l') :
    bucketMetrics l = bucketMetrics l' := by
  unfold bucketMetrics
  simp only [Metrics.mk.injEq]
  exact ⟨meanQ_perm (hp.filterMap _), meanQ_perm (hp.filterMap _),
    meanQ_perm (hp.filterMap _), meanQ_perm (hp.filterMap _),
    meanQ_perm (hp.filterMap _), meanQ_perm (hp.filterMap _),
    meanQ_perm (hp.filterMap _), meanQ_perm (hp.filterMap _)⟩

theorem aggregate_perm (rows rows' : List AggRow) (W : ℤ)
    (hperm : rows.Perm rows') :
    aggregate_to_intervals rows W = aggregate_to_intervals rows' W := by
  unfold aggregate_to_intervals
  cases he : rows.isEmpty
  · have he' : rows'.isEmpty = false := by
      simp only [List.isEmpty_eq_false] at he ⊢
      intro hc
      exact he (List.Perm.eq_nil (hc ▸ hperm))
    rw [he']
    simp only [Bool.false_eq_true, if_false]
    have hk : (rows.map fun r =>
          AggRow.mk (bucketOf W r.timestamp) r.metrics).Perm
        (rows'.map fun r => AggRow.mk (bucketOf W r.timestamp) r.metrics) :=
      hperm.map _
    have hb : ((rows.map fun r =>
          AggRow.mk (bucketOf W r.timestamp) r.metrics).map
            AggRow.timestamp).dedup.insertionSort (· ≤ ·)
        = ((rows'.map fun r =>
          AggRow.mk (bucketOf W r.timestamp) r.metrics).map
            AggRow.timestamp).dedup.insertionSort (· ≤ ·) := by
      refine List.eq_of_perm_of_sorted ?_
        (List.sorted_insertionSort _ _) (List.sorted_insertionSort _ _)
      exact ((List.perm_insertionSort _ _).trans
        ((hk.map AggRow.timestamp).dedup.trans
          (List.perm_insertionSort _ _).symm))
    rw [hb]
    apply List.map_congr_left
    intro b _
    exact congrArg (AggRow.mk b) (bucketMetrics_perm (hk.filter _))
  · rw [List.isEmpty_iff] at he
    subst he
    have h0 : rows' = [] := hperm.symm.eq_nil
    subst h0
    rfl

theorem aggregate_out_shape (rows : List AggRow) (W : ℤ)
    (hne : rows ≠ []) :
    aggregate_to_intervals rows W
      = (((rows.map fun r => AggRow.mk (bucketOf W r.timestamp)
            r.metrics).map AggRow.timestamp).dedup.insertionSort
          (· ≤ ·)).map fun b =>
        ⟨b, bucketMetrics ((rows.map fun r => AggRow.mk
          (bucketOf W r.timestamp) r.metrics).filter
            fun r => r.timestamp = b)⟩ := by
  unfold aggregate_to_intervals
  rw [if_neg (by simp [hne])]


theorem bucketOf_le (W t : ℤ) (hW : 0 < W) :
    bucketOf W t ≤ t ∧ t < bucketOf W t + W := by
  unfold bucketOf
  rw [Int.fdiv_eq_ediv _ (le_of_lt hW)]
  constructor
  · exact Int.ediv_mul_le t (ne_of_gt hW)
  · have h := Int.lt_ediv_add_one_mul_self t hW
    calc t < (t / W + 1) * W := h
      _ = t / W * W + W := by ring

theorem agg_metric_char {rows : List AggRow} {W : ℤ} {row : AggRow}
    (hrow : row ∈ aggregate_to_intervals rows W) (k : MetricKey) :
    row.metrics.sel k = meanQ ((rows.filter fun r =>
      bucketOf W r.timestamp = row.timestamp).filterMap
        fun r => r.metrics.sel k) := by
  by_cases hne : rows = []
  · subst hne
    simp [aggregate_to_intervals] at hrow
  · rw [aggregate_out_shape rows W hne] at hrow
    obtain ⟨b, hb, rfl⟩ := List.mem_map.mp hrow
    have hfeq : ((rows.map fun r => AggRow.mk (bucketOf W r.timestamp)
        r.metrics).filter fun r => r.timestamp = b)
        = (rows.filter fun r => bucketOf W r.timestamp = b).map
          fun r => AggRow.mk (bucketOf W r.timestamp) r.metrics := by
      rw [List.filter_map]
      rfl
    cases k <;>
      simp [bucketMetrics, Metrics.sel, hfeq, List.filterMap_map,
        Function.comp_def]

theorem agg_ts_char (rows : List AggRow) (W : ℤ) :
    ((aggregate_to_intervals rows W).map AggRow.timestamp).Sorted (· < ·)
    ∧ ∀ b : ℤ, b ∈ (aggregate_to_intervals rows W).map AggRow.timestamp ↔
        ∃ r ∈ rows, bucketOf W r.timestamp = b := by
  by_cases hne : rows = []
  · subst hne
    constructor
    · simp [aggregate_to_intervals]
    · intro b
      simp [aggregate_to_intervals]
  · rw [aggregate_out_shape rows W hne]
    have hmm : ((((rows.map fun r => AggRow.mk (bucketOf W r.timestamp)
        r.metrics).map AggRow.timestamp).dedup.insertionSort
          (· ≤ ·)).map (fun b => (⟨b, bucketMetrics ((rows.map fun r =>
            AggRow.mk (bucketOf W r.timestamp) r.metrics).filter
              fun r => r.timestamp = b)⟩ : AggRow))).map AggRow.timestamp
        = ((rows.map fun r => AggRow.mk (bucketOf W r.timestamp)
            r.metrics).map AggRow.timestamp).dedup.insertionSort (· ≤ ·) := by
      rw [List.map_map]
      have hco : (AggRow.timestamp ∘ fun b => (⟨b, bucketMetrics
          ((rows.map fun r => AggRow.mk (bucketOf W r.timestamp)
            r.metrics).filter fun r => r.timestamp = b)⟩ : AggRow))
          = id := rfl
      rw [hco, List.map_id]
    rw [hmm]
    constructor
    · apply List.Sorted.lt_of_le (List.sorted_insertionSort _ _)
      exact ((List.perm_insertionSort _ _).nodup_iff).mpr
        (List.nodup_dedup _)
    · intro b
      rw [(List.perm_insertionSort _ _).mem_iff, List.mem_dedup,
        List.map_map]
      simp [Function.comp]

theorem pyIndexStr_obj_inv {fields : List (String × JVal)} {k : String}
    {v : JVal} (h : pyIndexStr (.obj fields) k = .ok v) :
    jlookup fields k = some v := by
  unfold pyIndexStr at h
  dsimp only at h
  cases hl : jlookup fields k with
  | some v' =>
    rw [hl] at h
    dsimp only at h
    cases h
    rfl
  | none =>
    rw [hl] at h
    dsimp only at h
    cases h

theorem load_ok_some_body {n : String} {c : FileRead} {r : Record}
    (h : load_single_file n c = .ok (some r)) :
    loadSingleFileBody n c = .ok (some r) := by
  unfold load_single_file at h
  cases hb : loadSingleFileBody n c with
  | ok rr =>
    rw [hb] at h
    dsimp only at h
    cases h
    rfl
  | error e =>
    rw [hb] at h
    dsimp only at h
    split at h
    · cases h
    · cases h

theorem getMetric_none {rfields : List (String × JVal)} {key : String}
    (conv : JVal → Except PyErr JVal) (h : jlookup rfields key = none) :
    getMetric (.obj rfields) key conv = .ok none := by
  simp [getMetric, pyContains, h, bind, Except.bind, pure, Except.pure]

theorem body_inv {name : String} {fields : List (String × JVal)}
    {r : Record}
    (h : loadSingleFileBody name (.json (.obj fields)) = .ok (some r)) :
    ∃ ts result d u la j dll dlj ull ulj,
      parse_timestamp_from_filename name = some ts ∧
      pyIndexStr (JVal.obj fields) "result" = .ok result ∧
      getMetric result "download" convDiv = .ok d ∧
      getMetric result "upload" convDiv = .ok u ∧
      getMetric result "latency" convId = .ok la ∧
      getMetric result "jitter" convId = .ok j ∧
      getMetric result "downLoadedLatency" convId = .ok dll ∧
      getMetric result "downLoadedJitter" convId = .ok dlj ∧
      getMetric result "upLoadedLatency" convId = .ok ull ∧
      getMetric result "upLoadedJitter" convId = .ok ulj ∧
      r = ⟨ts, name, (jlookup fields "sessionID").getD JVal.null,
        (jlookup fields "endpoint").getD JVal.null, d, u, la, j, dll,
        dlj, ull, ulj⟩ := by
  unfold loadSingleFileBody at h
  simp only [bind, Except.bind, pure, Except.pure] at h
  repeat' split at h
  all_goals (try cases h)
  all_goals exact ⟨_, _, _, _, _, _, _, _, _, _, by assumption,
    by assumption, by assumption, by assumption, by assumption,
    by assumption, by assumption, by assumption, by assumption,
    by assumption, rfl⟩


/-- C8: metric optionality — a record parsed from a results section
that lacks one of the eight named metrics has that field absent, not
zero; and an aggregation bucket in which every contributing row lacks a
metric omits that metric in the output row rather than emitting zero. -/
theorem C8_metric_optionality :
    (∀ (name : String) (fields rfields : List (String × JVal))
        (r : Record) (k : MetricKey),
      load_single_file name (.json (.obj fields)) = .ok (some r) →
      jlookup fields "result" = some (.obj rfields) →
      jlookup rfields (metricKeyName k) = none →
      r.metricVal k = none) ∧
    (∀ (rows : List AggRow) (W : ℤ) (row : AggRow) (k : MetricKey),
      row ∈ aggregate_to_intervals rows W →
      (∀ r ∈ rows, bucketOf W r.timestamp = row.timestamp →
        r.metrics.sel k = none) →
      row.metrics.sel k = none) := by
  constructor
  · intro name fields rfields r k hload hres hlook
    obtain ⟨ts, result, d, u, la, j, dll, dlj, ull, ulj, hts, hresult,
      hd, hu, hla, hj, hdll, hdlj, hull, hulj, hr⟩ :=
        body_inv (load_ok_some_body hload)
    have hro : result = JVal.obj rfields :=
      Option.some.inj ((pyIndexStr_obj_inv hresult).symm.trans hres)
    subst hro
    subst hr
    cases k with
    | download =>
      cases (getMetric_none convDiv hlook).symm.trans hd
      rfl
    | upload =>
      cases (getMetric_none convDiv hlook).symm.trans hu
      rfl
    | latency =>
      cases (getMetric_none convId hlook).symm.trans hla
      rfl
    | jitter =>
      cases (getMetric_none convId hlook).symm.trans hj
      rfl
    | downLoadedLatency =>
      cases (getMetric_none convId hlook).symm.trans hdll
      rfl
    | downLoadedJitter =>
      cases (getMetric_none convId hlook).symm.trans hdlj
      rfl
    | upLoadedLatency =>
      cases (getMetric_none convId hlook).symm.trans hull
      rfl
    | upLoadedJitter =>
      cases (getMetric_none convId hlook).symm.trans hulj
      rfl
  · intro rows W row k hrow hall
    rw [agg_metric_char hrow k]
    have hnil : (rows.filter fun r =>
        bucketOf W r.timestamp = row.timestamp).filterMap
          (fun r => r.metrics.sel k) = [] := by
      rw [List.filterMap_eq_nil_iff]
      intro a ha
      obtain ⟨hmem, hbk⟩ := List.mem_filter.mp ha
      exact hall a hmem (by simpa using hbk)
    rw [hnil]
    rfl

/-- Witness for C8 at a concrete file whose results section lacks the
download metric. -/
theorem C8_metric_optionality_witness :
    load_single_file wName1 (.json (.obj [("success", .bool true),
      ("result", .obj [("latency", .num 12)])])) = .ok (some wRec1) ∧
    jlookup [("success", JVal.bool true), ("result", .obj [("latency",
      JVal.num 12)])] "result" = some (.obj [("latency", .num 12)]) ∧
    jlookup [("latency", JVal.num 12)] (metricKeyName .download) = none ∧
    wRec1.metricVal .download = none :=
  ⟨by rfl, by rfl, by rfl,
    C8_metric_optionality.1 wName1
      [("success", .bool true), ("result", .obj [("latency", .num 12)])]
      [("latency", .num 12)] wRec1 .download (by rfl) (by rfl) (by rfl)⟩

/-- C7: skip classification — the parser returns a skip for a file
whose success flag is false or absent regardless of its results
section, for a successful file without a results section, and for a
file whose name the codec cannot decode even when its content is
well-formed. -/
theorem C7_skip_classification :
    (∀ (name : String) (fields : List (String × JVal)),
      (jlookup fields "success" = none ∨
        jlookup fields "success" = some (JVal.bool false)) →
      load_single_file name (.json (.obj fields)) = .ok none) ∧
    (∀ (name : String) (fields : List (String × JVal)),
      pyTruthy ((jlookup fields "success").getD (JVal.bool false))
        = true →
      jlookup fields "result" = none →
      load_single_file name (.json (.obj fields)) = .ok none) ∧
    (∀ (name : String) (fields : List (String × JVal)),
      parse_timestamp_from_filename name = none →
      load_single_file name (.json (.obj fields)) = .ok none) := by
  refine ⟨?_, ?_, ?_⟩
  · intro name fields hsucc
    have hfalse : pyTruthy ((jlookup fields "success").getD
        (JVal.bool false)) = false := by
      rcases hsucc with h | h <;> rw [h] <;> rfl
    unfold load_single_file loadSingleFileBody
    simp [hfalse, bind, Except.bind, pure, Except.pure]
  · intro name fields hsucc hres
    unfold load_single_file loadSingleFileBody
    simp [hsucc, hres, bind, Except.bind, pure, Except.pure]
  · intro name fields hts
    unfold load_single_file loadSingleFileBody
    by_cases hsucc : pyTruthy ((jlookup fields "success").getD
        (JVal.bool false)) = false
    · simp [hsucc, bind, Except.bind, pure, Except.pure]
    · by_cases hres : jlookup fields "result" = none
      · simp [hsucc, hres, bind, Except.bind, pure, Except.pure]
      · simp [hsucc, hres, hts, bind, Except.bind, pure, Except.pure]

/-- Witness for C7: a content whose success flag is absent is skipped. -/
theorem C7_skip_classification_witness :
    (jlookup ([("result", JVal.obj [])]) "success" = none ∨
      jlookup ([("result", JVal.obj [])]) "success"
        = some (JVal.bool false)) ∧
    load_single_file wName1 (.json (.obj [("result", .obj [])]))
      = .ok none :=
  ⟨Or.inl rfl, C7_skip_classification.1 wName1 [("result", JVal.obj [])]
    (Or.inl rfl)⟩

/-- C3: the claim that the record parser never raises is wrong on the
code: on content that is valid JSON but not an object (here the array
[1, 2, 3]) data.get("success", False) raises AttributeError, which the
except clauses do not catch, and future.result() re-raises it inside
_load_json_files_parallel, aborting the whole batch. -/
theorem C3_attribute_error_escapes :
    load_single_file wName1 (.json (.arr [.num 1, .num 2, .num 3]))
      = .error .attrErr ∧
    _load_json_files_parallel
      [(wName1, .json (.arr [.num 1, .num 2, .num 3])),
        (wName2, wContent)] = .error .attrErr :=
  ⟨rfl, rfl⟩

/-- C9 counterexample: _save_cache writes the Parquet file in place at
its final path, so during the write the cache path holds a partially
written file — the sequence of states the path passes through is not
confined to the old and the new snapshot. -/
theorem C9_counterexample :
    ¬ (∀ s ∈ saveCacheStates CacheFile.absent [wRec1],
        s = CacheFile.absent ∨ s = CacheFile.snapshot [wRec1]) := by
  intro h
  rcases h CacheFile.torn (by simp [saveCacheStates]) with h' | h' <;>
    cases h'

/-- C9 amended: the cache write is not atomic — a torn intermediate
state of the cache path is observable during every write — but a
reader that observes it treats it as a cache miss (the read error is
downgraded), so no error propagates and the next cycle rebuilds. -/
theorem C9_write_torn_recovered (oldState : CacheFile)
    (df : List Record) :
    CacheFile.torn ∈ saveCacheStates oldState df ∧
      _load_cache CacheFile.torn = none :=
  ⟨by simp [saveCacheStates], rfl⟩


/-- C4: aggregation correctness — the empty input yields the empty
output; the result is invariant under permutation of the input rows;
each record is assigned to the greatest multiple of the interval width
not exceeding its timestamp (the floor bucket); the output carries
exactly one row per non-empty bucket, strictly ascending by bucket
start; and every present metric of an output row is the arithmetic mean
of that metric's non-null values in its bucket, omitted when every
contributing record lacks it. -/
theorem C4_aggregation_correct (rows rows2 : List AggRow) (W : ℤ)
    (hW : 0 < W) (hperm : rows.Perm rows2) :
    aggregate_to_intervals ([] : List AggRow) W = [] ∧
    aggregate_to_intervals rows W = aggregate_to_intervals rows2 W ∧
    (∀ t : ℤ, bucketOf W t ≤ t ∧ t < bucketOf W t + W) ∧
    ((aggregate_to_intervals rows W).map AggRow.timestamp).Sorted
      (· < ·) ∧
    (∀ b : ℤ,
      b ∈ (aggregate_to_intervals rows W).map AggRow.timestamp ↔
        ∃ r ∈ rows, bucketOf W r.timestamp = b) ∧
    (∀ row ∈ aggregate_to_intervals rows W, ∀ k : MetricKey,
      row.metrics.sel k = meanQ ((rows.filter fun r =>
        bucketOf W r.timestamp = row.timestamp).filterMap
          fun r => r.metrics.sel k)) :=
  ⟨rfl, aggregate_perm rows rows2 W hperm, fun t => bucketOf_le W t hW,
    (agg_ts_char rows W).1, (agg_ts_char rows W).2,
    fun _ hrow k => agg_metric_char hrow k⟩

/-- Witness for C4 on the specification's example: three rows at
minutes 0, 3 and 7 aggregated at a 10-minute width, against the same
rows in reverse order; the mean of the download column is 20. -/
theorem C4_aggregation_correct_witness :
    (0 : ℤ) < 10 ∧
    ([wAggRow 0 10, wAggRow 3 20, wAggRow 7 30]).Perm
      [wAggRow 7 30, wAggRow 3 20, wAggRow 0 10] ∧
    aggregate_to_intervals [wAggRow 0 10, wAggRow 3 20, wAggRow 7 30] 10
      = aggregate_to_intervals
          [wAggRow 7 30, wAggRow 3 20, wAggRow 0 10] 10 ∧
    aggregate_to_intervals [wAggRow 0 10, wAggRow 3 20, wAggRow 7 30] 10
      = [wAggRow 0 20] :=
  ⟨by decide, by decide,
    (C4_aggregation_correct [wAggRow 0 10, wAggRow 3 20, wAggRow 7 30]
      [wAggRow 7 30, wAggRow 3 20, wAggRow 0 10] 10 (by decide)
      (by decide)).2.1,
    by with_unfolding_all decide⟩

/-- Witness for C1: one cached file, one new file on disk. -/
theorem C1_incremental_merge_witness :
    (FileSys.mk true [(wName1, wContent), (wName2, wContent)]
        (.snapshot [wRec1])).dirExists = true ∧
    (FileSys.mk true [(wName1, wContent), (wName2, wContent)]
        (.snapshot [wRec1])).files.filter (fun f => matchesGlob f.1)
      = [(wName1, wContent)] ++ [(wName2, wContent)] ∧
    (FileSys.mk true [(wName1, wContent), (wName2, wContent)]
        (.snapshot [wRec1])).cache = .snapshot [wRec1] ∧
    [wRec1] ≠ [] ∧
    (∀ f ∈ [(wName1, wContent)],
      f.1 ∈ [wRec1].map Record.source_file) ∧
    (∀ f ∈ [(wName2, wContent)],
      f.1 ∉ [wRec1].map Record.source_file) ∧
    ([(wName2, wContent)] : List (String × FileRead)) ≠ [] ∧
    (∀ f ∈ [(wName2, wContent)],
      ∃ r, load_single_file f.1 f.2 = .ok r) ∧
    load_all_data (FileSys.mk true [(wName1, wContent),
        (wName2, wContent)] (.snapshot [wRec1])) =
      .ok ⟨(sortByTs ([wRec1] ++
          ([(wName2, wContent)]).filterMap parseOk)).map Record.strip,
        .snapshot (sortByTs ([wRec1] ++
          ([(wName2, wContent)]).filterMap parseOk)),
        ([(wName2, wContent)]).map (·.1)⟩ :=
  ⟨rfl, by rfl, rfl, by simp, by decide, by decide, by simp,
    fun f hf => by
      rcases List.mem_singleton.mp hf with rfl
      exact ⟨some wRec2, by rfl⟩,
    C1_incremental_merge _ [(wName1, wContent)] [(wName2, wContent)]
      [wRec1] rfl (by rfl) rfl (by simp) (by decide) (by decide)
      (by simp)
      (fun f hf => by
        rcases List.mem_singleton.mp hf with rfl
        exact ⟨some wRec2, by rfl⟩)⟩

/-- Witness for C2: a second invocation on the state a cold start left
behind returns the identical dataset and parses nothing. -/
theorem C2_fast_path_idempotent_witness :
    load_all_data (FileSys.mk true [(wName1, wContent)] .absent)
      = .ok ⟨[wRec1.strip], .snapshot [wRec1], [wName1]⟩ ∧
    (LoadOutcome.mk [wRec1.strip] (.snapshot [wRec1])
        [wName1]).cache = .snapshot [wRec1] ∧
    ([wRec1] : List Record) ≠ [] ∧
    (∀ f ∈ (FileSys.mk true [(wName1, wContent)] .absent).files.filter
        (fun f => matchesGlob f.1),
      f.1 ∈ [wRec1].map Record.source_file) ∧
    load_all_data { FileSys.mk true [(wName1, wContent)] .absent with
        cache := (LoadOutcome.mk [wRec1.strip] (.snapshot [wRec1])
          [wName1]).cache }
      = .ok ⟨[wRec1.strip], .snapshot [wRec1], []⟩ :=
  ⟨by rfl, rfl, by simp, by decide,
    C2_fast_path_idempotent (FileSys.mk true [(wName1, wContent)]
        .absent) (LoadOutcome.mk [wRec1.strip] (.snapshot [wRec1])
        [wName1]) [wRec1] (by rfl) rfl (by simp) (by decide)⟩

/-- Witness for C10: a cold start over one good and one failing file
records exactly the good file's name and parses both. -/
theorem C10_cache_names_witness :
    load_all_data (FileSys.mk true
        [(wName1, wContent), (wName2, .json (.obj []))] .absent)
      = .ok ⟨[wRec1.strip], .snapshot [wRec1], [wName1, wName2]⟩ ∧
    (FileSys.mk true [(wName1, wContent), (wName2, .json (.obj []))]
        .absent).dirExists = true ∧
    ((FileSys.mk true [(wName1, wContent), (wName2, .json (.obj []))]
        .absent).files.map (·.1)).Nodup ∧
    ((∀ n : String, n ∈ sourceNames (LoadOutcome.mk [wRec1.strip]
        (.snapshot [wRec1]) [wName1, wName2]).cache ↔
      (n ∈ sourceNames (FileSys.mk true [(wName1, wContent),
          (wName2, .json (.obj []))] .absent).cache ∨
        ∃ f ∈ (FileSys.mk true [(wName1, wContent),
            (wName2, .json (.obj []))] .absent).files.filter
              (fun g => matchesGlob g.1),
          f.1 = n ∧ (parseOk f).isSome)) ∧
    (∀ f ∈ (FileSys.mk true [(wName1, wContent),
        (wName2, .json (.obj []))] .absent).files.filter
          (fun g => matchesGlob g.1),
      f.1 ∉ sourceNames (FileSys.mk true [(wName1, wContent),
          (wName2, .json (.obj []))] .absent).cache →
        f.1 ∈ (LoadOutcome.mk [wRec1.strip] (.snapshot [wRec1])
          [wName1, wName2]).parsed) ∧
    (∀ f ∈ (FileSys.mk true [(wName1, wContent),
        (wName2, .json (.obj []))] .absent).files.filter
          (fun g => matchesGlob g.1),
      load_single_file f.1 f.2 = .ok none →
        f.1 ∉ sourceNames (FileSys.mk true [(wName1, wContent),
            (wName2, .json (.obj []))] .absent).cache →
          f.1 ∉ sourceNames (LoadOutcome.mk [wRec1.strip]
            (.snapshot [wRec1]) [wName1, wName2]).cache)) :=
  ⟨by rfl, rfl, by decide,
    C10_cache_names (FileSys.mk true
        [(wName1, wContent), (wName2, .json (.obj []))] .absent)
      (LoadOutcome.mk [wRec1.strip] (.snapshot [wRec1])
        [wName1, wName2]) (by rfl) rfl (by decide)⟩

end Netzbremse
